import Mathlib

/-!
Verification development for the emotion-analyzer application (`src/app.py`)
and the session-history ledger design described in its specification.

The first half embeds the analyze-and-record control flow of `app.py`:
input stripping, the classifier boundary, the sorted score list, the
`emotion_map` lookup, the rounded sentiment score, the append-only session
history, and the newest-first display window of the last five entries.
Floating-point probabilities are modelled as rationals; Python `round`'s
round-half-to-even behaviour is modelled exactly on ℚ.

The second half models, from the specification, the ledger operations that
are not present in `src/app.py` (chronological projection and CSV export)
and proves the specified properties about them.
-/

/-- Python whitespace characters recognised by `str.strip()` (ASCII subset). -/
def isPySpace (c : Char) : Bool :=
  c = ' ' || c = '\t' || c = '\n' || c = '\r' || c = '\x0b' || c = '\x0c'

/-- Model of Python `str.strip()`: drop whitespace from both ends. -/
def pyStrip (s : List Char) : List Char :=
  ((s.dropWhile isPySpace).reverse.dropWhile isPySpace).reverse

/-- One entry of `st.session_state.history` (app.py lines 140-145):
the analysed text, the mapped emotion display string, the rounded
sentiment score, and the `strftime` timestamp string. -/
structure HistEntry where
  text : List Char
  emotion : String
  score : ℚ
  time : String
deriving DecidableEq

/-- JSON values as produced for the downloadable report (strings, numbers,
flat objects suffice for `report_data`). -/
inductive Json where
  | str : String → Json
  | num : ℚ → Json
  | obj : List (String × Json) → Json

/-- The `emotion_map` dict from app.py lines 85-92: classifier label ↦
(display string, interpretation). -/
def emotion_map : List (String × String × String) := [
  ("sadness", ("Sadness 😔", "This message carries feelings of sadness, heaviness or emotional struggle.")),
  ("joy", ("Happiness 😊", "This text expresses joy, positivity and an uplifting tone.")),
  ("anger", ("Anger 😡", "There is frustration, irritation or strong negative feelings in this message.")),
  ("fear", ("Fear 😨", "This message shows anxiety, worry or emotionally tense feelings.")),
  ("surprise", ("Surprise 😲", "The message expresses amazement, shock or something unexpected.")),
  ("neutral", ("Neutral 🙂", "The tone is balanced and does not show strong emotions."))]

/-- Python dict indexing `emotion_map[label]`: `none` models the `KeyError`. -/
def emotionLookup (label : String) : Option (String × String) :=
  emotion_map.lookup label

/-- The list `all_labels = list(emotion_map.keys())` (app.py line 94). -/
def all_labels : List String := emotion_map.map (·.1)

/-- Stable insertion (descending by score) used to model Python's stable
`sorted(..., key=lambda x: x["score"], reverse=True)`: an element is placed
before the first element whose score is not larger, so equal scores keep
their original order. -/
def insertScoreDesc (x : String × ℚ) : List (String × ℚ) → List (String × ℚ)
  | [] => [x]
  | y :: ys => if y.2 ≤ x.2 then x :: y :: ys else y :: insertScoreDesc x ys

/-- Model of `sorted(output[0], key=lambda x: x["score"], reverse=True)`
(app.py line 122): stable descending sort by score. -/
def sortScoresDesc : List (String × ℚ) → List (String × ℚ)
  | [] => []
  | x :: xs => insertScoreDesc x (sortScoresDesc xs)

/-- Lookup in the dict comprehension `{s["label"]: s["score"] for s in all_scores}`
(app.py line 136): in a Python dict built from a list, the last occurrence of
a key wins, hence the lookup over the reversed list. -/
def dictLookup (l : List (String × ℚ)) (k : String) : Option ℚ :=
  l.reverse.lookup k

/-- Round-half-to-even to an integer, as Python's `round` does on ℚ. -/
def roundHalfEven (x : ℚ) : ℤ :=
  if x - ⌊x⌋ < 1/2 then ⌊x⌋
  else if 1/2 < x - ⌊x⌋ then ⌊x⌋ + 1
  else if ⌊x⌋ % 2 = 0 then ⌊x⌋ else ⌊x⌋ + 1

/-- Model of Python `round(v, 2)`: round half to even at two decimal places. -/
def pythonRound2 (v : ℚ) : ℚ := (roundHalfEven (v * 100) : ℚ) / 100

/-- JSON string escaping for the characters that can occur in report fields. -/
def jsonEscapeChar (c : Char) : List Char :=
  if c = '\\' then ['\\', '\\']
  else if c = '"' then ['\\', '"']
  else if c = '\n' then ['\\', 'n']
  else if c = '\t' then ['\\', 't']
  else if c = '\r' then ['\\', 'r']
  else [c]

/-- JSON string escaping, lifted to strings. -/
def jsonEscape (s : String) : String := String.mk (s.toList.map jsonEscapeChar).flatten

/-- Rendering of a numeric JSON value (model of the stdlib's number output;
integral values print as integers). -/
def renderJsonNum (q : ℚ) : String :=
  toString q.num ++ (if q.den = 1 then "" else "/" ++ toString q.den)

/-- Rendering of an atomic JSON value: strings are quote-enclosed and
escaped, numbers are rendered bare (not quoted). -/
def renderLeaf : Json → String
  | .str s => "\"" ++ jsonEscape s ++ "\""
  | .num q => renderJsonNum q
  | .obj _ => ""

/-- Join the rendered key/value lines of an object with `",\n"`. -/
def jsonLines : List String → String
  | [] => ""
  | [x] => x
  | x :: xs => x ++ ",\n" ++ jsonLines xs

/-- Model of `json.dumps(obj, indent=4)` for a flat object: opening brace,
each key/value pair on its own line indented by four spaces, comma
separators, closing brace (app.py line 188). -/
def jsonDumps4 : Json → String
  | .obj kvs => "\x7b\n" ++
      jsonLines (kvs.map (fun kv => "    \"" ++ jsonEscape kv.1 ++ "\": " ++ renderLeaf kv.2)) ++
      "\n\x7d"
  | j => renderLeaf j

/-- The keys of a JSON object, in order. -/
def objKeys : Json → List String
  | .obj kvs => kvs.map (·.1)
  | _ => []

/-- Field access on a JSON object. -/
def objGet : Json → String → Option Json
  | .obj kvs, k => kvs.lookup k
  | _, _ => none

/-- The `report_data` dict from app.py lines 182-187: the downloadable report object,
keys in insertion order `text, emotion, strength, interpretation`. -/
def report_data (t : List Char) (emotion : String) (strength : ℚ)
    (interp : String) : Json :=
  .obj [("text", .str (String.mk t)), ("emotion", .str emotion),
        ("strength", .num strength), ("interpretation", .str interp)]

/-- Outcome of one press of the Analyze button, as surfaced to the user. -/
inductive Outcome where
  | warning
  | done (report : Json)
  | indexError
  | classifierRaised
  | keyError (label : String)

/-- The analyze branch of app.py (lines 129-195), as a function of the
classifier (the external `transformers` pipeline, which may raise), the
current timestamp string, the session history and the entered text.
Returns the new history together with the user-visible outcome.  The
control flow mirrors the source: empty-after-strip check, classifier call,
descending sort with `scores[0]` as the top label, `emotion_map[label]`
lookup, `score_dict[label]`, `round(... * 100, 2)`, then the history append
and the report. -/
def analyzeStep (classify : List Char → Except Unit (List (String × ℚ)))
    (now : String) (history : List HistEntry) (user_text : List Char) :
    List HistEntry × Outcome :=
  if pyStrip user_text = [] then
    (history, .warning)
  else
    match classify user_text with
    | .error _ => (history, .classifierRaised)
    | .ok output =>
      match sortScoresDesc output with
      | [] => (history, .indexError)
      | (label, s) :: rest =>
        match emotionLookup label with
        | none => (history, .keyError label)
        | some (emotion, interp) =>
          match dictLookup ((label, s) :: rest) label with
          | none => (history, .keyError label)
          | some p =>
            let sentiment_score := pythonRound2 (p * 100)
            (history ++ [{ text := user_text, emotion := emotion,
                           score := sentiment_score, time := now }],
             .done (report_data user_text emotion sentiment_score interp))

/-- The history as displayed (app.py line 202):
`reversed(st.session_state.history[-5:])` — the last five stored entries,
newest first. -/
def displayedHistory (h : List HistEntry) : List HistEntry :=
  (h.drop (h.length - 5)).reverse

/-- The most recent analysis as shown at the top of the history section;
`none` for an empty history. -/
def latestDisplayed (h : List HistEntry) : Option HistEntry :=
  (displayedHistory h).head?

/-- The history section is rendered only when the history is non-empty
(app.py line 200). -/
def showsHistorySection (h : List HistEntry) : Bool := decide (0 < h.length)

/-- A classifier stub that always succeeds with a fixed distribution. -/
def constClassify (scores : List (String × ℚ)) :
    List Char → Except Unit (List (String × ℚ)) :=
  fun _ => .ok scores

/-- Iterate the analyze step `n` times on the same input text. -/
def iterAnalyze (classify : List Char → Except Unit (List (String × ℚ)))
    (now : String) (t : List Char) : Nat → List HistEntry → List HistEntry
  | 0, h => h
  | n + 1, h => iterAnalyze classify now t n (analyzeStep classify now h t).1

/-! ### Spec-modelled ledger operations

`chronological_view`, `tabular_view` and `export("csv")` are described in the
specification's Ledger component but are not implemented in `src/app.py`;
they are modelled here from the specification's words. -/

/-- Modelled from the spec: a ledger record reduced to the fields used by
`chronological_view` — a creation timestamp and the numeric score.  The
ledger stores records newest-first (spec §3: newest always at index 0). -/
structure ChronRecord where
  time : Nat
  score : ℚ
deriving DecidableEq

/-- Modelled from the spec: `record` inserts at the head and truncates to
`capacity` entries, dropping from the tail (spec §4.1). -/
def specRecord (capacity : Nat) (r : ChronRecord) (l : List ChronRecord) :
    List ChronRecord :=
  (r :: l).take capacity

/-- Modelled from the spec: `chronological_view()` — the `(timestamp, score)`
pairs in ascending time order, i.e. the reverse of the newest-first storage
order, re-derived from the stored sequence (spec §4.1). -/
def chronological_view (l : List ChronRecord) : List (Nat × ℚ) :=
  (l.map (fun r => (r.time, r.score))).reverse

/-- Modelled from the spec: a full ledger record as exported to CSV —
timestamp rendering, original text, primary label, compound score. -/
structure SpecRecord where
  time : List Char
  text : List Char
  label : List Char
  compound : ℚ

/-- Modelled from the spec: `tabular_view()` — rows
`(timestamp, input_text, label, score)` in newest-first storage order. -/
def tabular_view (l : List SpecRecord) :
    List (List Char × List Char × List Char × ℚ) :=
  l.map (fun r => (r.time, r.text, r.label, r.compound))

/-- A character that forces CSV quoting: the delimiter, a quote, a newline. -/
def isCsvSpecial (c : Char) : Bool := c = ',' || c = '"' || c = '\n'

/-- Double every internal quote (standard CSV escaping). -/
def escapeQuotes : List Char → List Char
  | [] => []
  | c :: cs => if c = '"' then '"' :: '"' :: escapeQuotes cs else c :: escapeQuotes cs

/-- Standard CSV field quoting: a field containing a delimiter, quote or
newline is quote-enclosed with internal quotes doubled; other fields are
emitted verbatim. -/
def escapeField (f : List Char) : List Char :=
  if f.any isCsvSpecial then '"' :: (escapeQuotes f ++ ['"']) else f

/-- One CSV row: escaped fields joined by commas. -/
def renderRow : List (List Char) → List Char
  | [] => []
  | [f] => escapeField f
  | f :: fs => escapeField f ++ ',' :: renderRow fs

/-- A CSV document: rows joined by newlines. -/
def renderCSV : List (List (List Char)) → List Char
  | [] => []
  | [r] => renderRow r
  | r :: rs => renderRow r ++ '\n' :: renderCSV rs

/-- Decimal digit rendering of a natural number. -/
def renderNatChars (n : Nat) : List Char := Nat.toDigits 10 n

/-- Rendering of the compound score as a CSV field (integral scores render
as integers, others as a fraction). -/
def renderCompound (q : ℚ) : List Char :=
  (if q.num < 0 then ['-'] else []) ++ renderNatChars q.num.natAbs ++
    (if q.den = 1 then [] else '/' :: renderNatChars q.den)

/-- Modelled from the spec: the fixed CSV header columns
`time,text,compound,label` (spec §6). -/
def csvHeader : List (List Char) := ["time".toList, "text".toList, "compound".toList, "label".toList]

/-- The CSV data row for one `tabular_view` row, in header column order. -/
def csvRowOf (row : List Char × List Char × List Char × ℚ) : List (List Char) :=
  [row.1, row.2.1, renderCompound row.2.2.2, row.2.2.1]

/-- Modelled from the spec: `export("csv")` — the header row followed by one
row per retained record in `tabular_view` (newest-first) order (spec §4.1). -/
def exportCSV (l : List SpecRecord) : List Char :=
  renderCSV (csvHeader :: (tabular_view l).map csvRowOf)

/-- Parse the body of a quoted CSV field (after the opening quote): a
doubled quote is a literal quote, a single quote closes the field. -/
def parseQuotedBody : List Char → Option (List Char × List Char)
  | [] => none
  | c :: rest =>
    if c = '"' then
      match rest with
      | c2 :: rest2 =>
        if c2 = '"' then (parseQuotedBody rest2).map (fun p => ('"' :: p.1, p.2))
        else some ([], rest)
      | [] => some ([], [])
    else (parseQuotedBody rest).map (fun p => (c :: p.1, p.2))

/-- Parse an unquoted CSV field: everything up to a delimiter or newline. -/
def parseBareField : List Char → List Char × List Char
  | [] => ([], [])
  | c :: rest =>
    if c = ',' || c = '\n' then ([], c :: rest)
    else
      let p := parseBareField rest
      (c :: p.1, p.2)

/-- Parse one CSV field, quoted or bare. -/
def parseField (s : List Char) : Option (List Char × List Char) :=
  match s with
  | '"' :: rest => parseQuotedBody rest
  | _ => some (parseBareField s)

/-- Parse one CSV row (a comma-separated field list), fuelled by the
maximum number of fields. -/
def parseLineFuel : Nat → List Char → Option (List (List Char) × List Char)
  | 0, _ => none
  | fuel + 1, s =>
    match parseField s with
    | none => none
    | some (f, rest) =>
      match rest with
      | ',' :: rest2 =>
        match parseLineFuel fuel rest2 with
        | none => none
        | some (fs, r) => some (f :: fs, r)
      | _ => some ([f], rest)

/-- Parse one CSV row; a row of `n` fields has at least `n - 1` separator
characters, so `length + 1` units of fuel always suffice. -/
def parseLine (s : List Char) : Option (List (List Char) × List Char) :=
  parseLineFuel (s.length + 1) s

/-- Parse a newline-separated sequence of CSV rows, fuelled by the maximum
number of rows; succeeds only when the whole input is consumed. -/
def parseRowsFuel : Nat → List Char → Option (List (List (List Char)))
  | 0, _ => none
  | fuel + 1, s =>
    match parseLine s with
    | none => none
    | some (fs, rest) =>
      match rest with
      | [] => some [fs]
      | '\n' :: rest2 =>
        match parseRowsFuel fuel rest2 with
        | none => none
        | some rs => some (fs :: rs)
      | _ => none

/-- Parse a CSV document into its rows of fields. -/
def parseCSV (s : List Char) : Option (List (List (List Char))) :=
  parseRowsFuel (s.length + 1) s

/-! ### Helper lemmas -/

lemma pyStrip_eq_nil_of_all_space (s : List Char) (hs : s.all isPySpace = true) :
    pyStrip s = [] := by
  unfold pyStrip
  have h1 : s.dropWhile isPySpace = [] := by
    rw [List.dropWhile_eq_nil_iff]
    intro x hx
    exact List.all_eq_true.mp hs x hx
  simp [h1]

lemma displayedHistory_length_le (h : List HistEntry) :
    (displayedHistory h).length ≤ 5 := by
  unfold displayedHistory
  simp only [List.length_reverse, List.length_drop]
  omega

lemma latestDisplayed_append (h : List HistEntry) (e : HistEntry) :
    latestDisplayed (h ++ [e]) = some e := by
  unfold latestDisplayed displayedHistory
  have hk : (h ++ [e]).length - 5 ≤ h.length := by
    simp only [List.length_append, List.length_singleton]
    omega
  rw [List.drop_append_of_le_length hk]
  simp

lemma analyzeStep_history_shape (classify : List Char → Except Unit (List (String × ℚ)))
    (now : String) (h : List HistEntry) (t : List Char) :
    (analyzeStep classify now h t).1 = h ∨
      ∃ e, (analyzeStep classify now h t).1 = h ++ [e] := by
  unfold analyzeStep
  split
  · exact Or.inl rfl
  · split
    · exact Or.inl rfl
    · split
      · exact Or.inl rfl
      · split
        · exact Or.inl rfl
        · split
          · exact Or.inl rfl
          · exact Or.inr ⟨_, rfl⟩

/-- C4: a submitted input that is zero-length or whitespace-only is rejected
with the warning: no classifier is consulted (the outcome is the same for
every classifier) and the history is unchanged. -/
theorem c4_empty_input_rejected
    (classify : List Char → Except Unit (List (String × ℚ)))
    (now : String) (h : List HistEntry) (t : List Char)
    (hsp : t.all isPySpace = true) :
    analyzeStep classify now h t = (h, Outcome.warning) := by
  unfold analyzeStep
  rw [pyStrip_eq_nil_of_all_space t hsp]
  simp

/-- Witness for C4 at the whitespace-only input `" \t"`. -/
theorem c4_empty_input_rejected_witness :
    (" \t".toList.all isPySpace = true) ∧
      analyzeStep (constClassify [("joy", 1)]) "now" [] " \t".toList =
        ([], Outcome.warning) :=
  ⟨by decide,
   c4_empty_input_rejected (constClassify [("joy", 1)]) "now" [] " \t".toList (by decide)⟩

/-- C5: if the classifier call raises during a single analyze attempt, the
stored history is exactly what it was before the attempt — no record is
modified, removed or appended. -/
theorem c5_classifier_failure_preserves_history
    (classify : List Char → Except Unit (List (String × ℚ)))
    (now : String) (h : List HistEntry) (t : List Char) (e : Unit)
    (hf : classify t = Except.error e) :
    (analyzeStep classify now h t).1 = h := by
  unfold analyzeStep
  split
  · rfl
  · rw [hf]

/-- Witness for C5 with an always-raising classifier and a non-empty history. -/
theorem c5_classifier_failure_preserves_history_witness :
    (analyzeStep (fun _ => Except.error ()) "now"
        [{ text := "old".toList, emotion := "Neutral 🙂", score := 0, time := "t0" }]
        "hi".toList).1 =
      [{ text := "old".toList, emotion := "Neutral 🙂", score := 0, time := "t0" }] :=
  c5_classifier_failure_preserves_history (fun _ => Except.error ()) "now"
    [{ text := "old".toList, emotion := "Neutral 🙂", score := 0, time := "t0" }]
    "hi".toList () rfl

lemma roundHalfEven_intCast (m : ℤ) : roundHalfEven (m : ℚ) = m := by
  unfold roundHalfEven
  simp

lemma pythonRound2_intCast (m : ℤ) : pythonRound2 (m : ℚ) = m := by
  unfold pythonRound2
  rw [show ((m : ℚ) * 100) = ((m * 100 : ℤ) : ℚ) by push_cast; ring]
  rw [roundHalfEven_intCast]
  push_cast
  field_simp

lemma roundHalfEven_nonneg (x : ℚ) (hx : 0 ≤ x) : 0 ≤ roundHalfEven x := by
  unfold roundHalfEven
  have hf : 0 ≤ ⌊x⌋ := Int.floor_nonneg.mpr hx
  split
  · exact hf
  · split
    · omega
    · split <;> omega

lemma roundHalfEven_le (x : ℚ) (m : ℤ) (hx : x ≤ m) : roundHalfEven x ≤ m := by
  unfold roundHalfEven
  have hf : ⌊x⌋ ≤ m := by
    have := Int.floor_le_floor hx
    simpa using this
  have hkey : ¬(x - ⌊x⌋ < 1/2) → ⌊x⌋ < m := by
    intro hge
    have hr : (1 : ℚ)/2 ≤ x - ⌊x⌋ := not_lt.mp hge
    by_contra hc
    have heq : ⌊x⌋ = m := le_antisymm hf (by omega)
    rw [heq] at hr
    linarith
  split
  · exact hf
  · next hge =>
    have hlt := hkey hge
    split
    · omega
    · split <;> omega

lemma pythonRound2_bounds (v : ℚ) (h0 : 0 ≤ v) (h1 : v ≤ 100) :
    0 ≤ pythonRound2 v ∧ pythonRound2 v ≤ 100 := by
  unfold pythonRound2
  have hlo : 0 ≤ roundHalfEven (v * 100) := roundHalfEven_nonneg _ (by positivity)
  have hhi : roundHalfEven (v * 100) ≤ 10000 := by
    apply roundHalfEven_le
    push_cast
    nlinarith
  constructor
  · positivity
  · rw [div_le_iff₀ (by norm_num : (0:ℚ) < 100)]
    calc ((roundHalfEven (v * 100) : ℤ) : ℚ) ≤ ((10000 : ℤ) : ℚ) := by exact_mod_cast hhi
    _ = 100 * 100 := by norm_num

/-- A concrete classifier that always returns probability 1 for `joy`. -/
def joyClassify : List Char → Except Unit (List (String × ℚ)) :=
  constClassify [("joy", 1), ("sadness", 0)]

/-- The history entry produced by a successful `joyClassify` analysis. -/
def joyEntry (t : List Char) (now : String) : HistEntry :=
  { text := t, emotion := "Happiness 😊", score := 100, time := now }

/-- The report produced by a successful `joyClassify` analysis. -/
def joyReport (t : List Char) : Json :=
  report_data t "Happiness 😊" 100 "This text expresses joy, positivity and an uplifting tone."

lemma sortScoresDesc_joy :
    sortScoresDesc [("joy", (1:ℚ)), ("sadness", 0)] = [("joy", 1), ("sadness", 0)] := by
  simp [sortScoresDesc, insertScoreDesc]

lemma pythonRound2_hundred : pythonRound2 (100 : ℚ) = 100 := by
  have := pythonRound2_intCast 100
  norm_num at this
  exact this

lemma analyzeStep_joy (now : String) (h : List HistEntry) (t : List Char)
    (ht : ¬pyStrip t = []) :
    analyzeStep joyClassify now h t = (h ++ [joyEntry t now], Outcome.done (joyReport t)) := by
  unfold analyzeStep joyClassify constClassify
  rw [if_neg ht]
  dsimp only
  rw [sortScoresDesc_joy]
  have hem : emotionLookup "joy" =
      some ("Happiness 😊", "This text expresses joy, positivity and an uplifting tone.") := by
    decide
  have hd : dictLookup [("joy", (1:ℚ)), ("sadness", 0)] "joy" = some 1 := by
    simp [dictLookup, List.lookup]
  simp [hem, hd, joyEntry, joyReport, pythonRound2_hundred]

lemma analyzeStep_joy_fst (now : String) (h : List HistEntry) (t : List Char)
    (ht : ¬pyStrip t = []) :
    (analyzeStep joyClassify now h t).1 = h ++ [joyEntry t now] := by
  rw [analyzeStep_joy now h t ht]

lemma iterAnalyze_joy (now : String) (t : List Char) (ht : ¬pyStrip t = []) :
    ∀ (n : Nat) (h : List HistEntry),
      iterAnalyze joyClassify now t n h = h ++ List.replicate n (joyEntry t now) := by
  intro n
  induction n with
  | zero => intro h; simp [iterAnalyze]
  | succ k ih =>
    intro h
    rw [iterAnalyze, analyzeStep_joy_fst now h t ht, ih]
    simp [List.replicate_succ]

/-- C1 counterexample: 201 successful record operations leave 201 records in
the stored history — more than the largest capacity (200) the claim allows,
so the stored length is not bounded by any configured capacity. -/
theorem c1_counterexample_unbounded :
    (iterAnalyze joyClassify "now" "A".toList 201 []).length = 201 ∧ ¬(201 ≤ 200) := by
  constructor
  · rw [iterAnalyze_joy "now" "A".toList (by decide) 201 []]
    simp only [List.nil_append, List.length_replicate]
  · decide

/-- C1 (amended): `app.py` never evicts — each analyze call either leaves the
stored history unchanged or appends exactly one record to its end; only the
displayed history view is bounded, at the last five records. -/
theorem c1_amended_bounded_display_only
    (classify : List Char → Except Unit (List (String × ℚ)))
    (now : String) (h : List HistEntry) (t : List Char) :
    ((analyzeStep classify now h t).1 = h ∨
      ∃ e, (analyzeStep classify now h t).1 = h ++ [e]) ∧
    (displayedHistory (analyzeStep classify now h t).1).length ≤ 5 :=
  ⟨analyzeStep_history_shape classify now h t,
   displayedHistory_length_le _⟩

/-- Four successive successful analyses of the texts A, B, C, D. -/
def runJoy4 : List HistEntry :=
  (analyzeStep joyClassify "t4"
    (analyzeStep joyClassify "t3"
      (analyzeStep joyClassify "t2"
        (analyzeStep joyClassify "t1" [] "A".toList).1 "B".toList).1 "C".toList).1
    "D".toList).1

lemma runJoy4_eq : runJoy4 =
    [joyEntry "A".toList "t1", joyEntry "B".toList "t2",
     joyEntry "C".toList "t3", joyEntry "D".toList "t4"] := by
  unfold runJoy4
  rw [analyzeStep_joy_fst "t1" [] "A".toList (by decide)]
  rw [analyzeStep_joy_fst "t2" _ "B".toList (by decide)]
  rw [analyzeStep_joy_fst "t3" _ "C".toList (by decide)]
  rw [analyzeStep_joy_fst "t4" _ "D".toList (by decide)]
  rfl

/-- C2 counterexample: after four successive records A, B, C, D the record
for A is still retained and four records are stored, so the retained set is
not `{B, C, D}` (no eviction happens). -/
theorem c2_counterexample_no_eviction :
    runJoy4.map HistEntry.text =
      ["A".toList, "B".toList, "C".toList, "D".toList] ∧
    runJoy4.length = 4 ∧ ¬runJoy4.length = 3 := by
  rw [runJoy4_eq]
  refine ⟨rfl, rfl, by decide⟩

/-- C2 (amended): nothing is evicted — after four successive successful
records A, B, C, D all four are retained in insertion order, and the newest
displayed record (latest) is D. -/
theorem c2_amended_all_retained_latest_d :
    runJoy4 = [joyEntry "A".toList "t1", joyEntry "B".toList "t2",
               joyEntry "C".toList "t3", joyEntry "D".toList "t4"] ∧
    latestDisplayed runJoy4 = some (joyEntry "D".toList "t4") := by
  refine ⟨runJoy4_eq, ?_⟩
  rw [runJoy4_eq]
  rw [show [joyEntry "A".toList "t1", joyEntry "B".toList "t2",
            joyEntry "C".toList "t3", joyEntry "D".toList "t4"] =
        [joyEntry "A".toList "t1", joyEntry "B".toList "t2",
         joyEntry "C".toList "t3"] ++ [joyEntry "D".toList "t4"] from rfl]
  exact latestDisplayed_append _ _

/-- Two successive successful analyses of the texts A then B. -/
def runJoy2 : List HistEntry :=
  (analyzeStep joyClassify "t2"
    (analyzeStep joyClassify "t1" [] "A".toList).1 "B".toList).1

lemma runJoy2_eq : runJoy2 = [joyEntry "A".toList "t1", joyEntry "B".toList "t2"] := by
  unfold runJoy2
  rw [analyzeStep_joy_fst "t1" [] "A".toList (by decide)]
  rw [analyzeStep_joy_fst "t2" _ "B".toList (by decide)]
  rfl

/-- C3 counterexample: after recording A then B, index 0 of the stored
ledger holds the older record A, not the newest record B, so the stored
order is not most-recent-first. -/
theorem c3_counterexample_oldest_at_index_zero :
    runJoy2.head? = some (joyEntry "A".toList "t1") ∧
    runJoy2.getLast? = some (joyEntry "B".toList "t2") ∧
    (joyEntry "A".toList "t1").text ≠ (joyEntry "B".toList "t2").text := by
  rw [runJoy2_eq]
  refine ⟨rfl, rfl, by decide⟩

/-- C3 (amended): the stored history keeps the newest record at its last
index; the displayed view is most-recent-first, so its head (the latest
displayed record) is the record just appended, which is never evicted; on
the empty history the latest record is absent and the history section is
not rendered, with no error. -/
theorem c3_amended_newest_last_display_first :
    (∀ (h : List HistEntry) (e : HistEntry),
      (h ++ [e]).getLast? = some e ∧ latestDisplayed (h ++ [e]) = some e) ∧
    (∀ (classify : List Char → Except Unit (List (String × ℚ)))
       (now : String) (h : List HistEntry) (t : List Char),
      (analyzeStep classify now h t).1 = h ∨
        ∃ e, (analyzeStep classify now h t).1 = h ++ [e]) ∧
    latestDisplayed [] = none ∧ showsHistorySection [] = false :=
  ⟨fun h e => ⟨by simp, latestDisplayed_append h e⟩,
   analyzeStep_history_shape, rfl, rfl⟩

lemma analyzeStep_done_inv (classify : List Char → Except Unit (List (String × ℚ)))
    (now : String) (h : List HistEntry) (t : List Char) (rpt : Json)
    (hdone : (analyzeStep classify now h t).2 = Outcome.done rpt) :
    ∃ em q interp, rpt = report_data t em q interp := by
  unfold analyzeStep at hdone
  split at hdone
  · simp at hdone
  · split at hdone
    · simp at hdone
    · split at hdone
      · simp at hdone
      · split at hdone
        · simp at hdone
        · split at hdone
          · simp at hdone
          · simp at hdone
            exact ⟨_, _, _, hdone.symm⟩

/-- C8: whenever an analysis completes and produces a report, the report is
a JSON object with exactly the keys `text, emotion, strength, interpretation`
in that order, the `strength` value is a JSON number (not a string), and the
indent-4 serialization places each key on its own line indented by four
spaces, separated by `",\n"`, between braces — with the number rendered
unquoted. -/
theorem c8_report_object_shape
    (classify : List Char → Except Unit (List (String × ℚ)))
    (now : String) (h : List HistEntry) (t : List Char) (rpt : Json)
    (hdone : (analyzeStep classify now h t).2 = Outcome.done rpt) :
    ∃ (em : String) (q : ℚ) (interp : String),
      objKeys rpt = ["text", "emotion", "strength", "interpretation"] ∧
      objGet rpt "strength" = some (Json.num q) ∧
      jsonDumps4 rpt =
        "\x7b\n" ++ jsonLines
          ["    \"text\": " ++ renderLeaf (Json.str (String.mk t)),
           "    \"emotion\": " ++ renderLeaf (Json.str em),
           "    \"strength\": " ++ renderJsonNum q,
           "    \"interpretation\": " ++ renderLeaf (Json.str interp)] ++ "\n\x7d" := by
  obtain ⟨em, q, interp, rfl⟩ := analyzeStep_done_inv classify now h t rpt hdone
  exact ⟨em, q, interp, rfl, rfl, rfl⟩

/-- Witness for C8 at a concrete successful run (text "A", classifier `joy`). -/
theorem c8_report_object_shape_witness :
    ∃ (em : String) (q : ℚ) (interp : String),
      objKeys (joyReport "A".toList) = ["text", "emotion", "strength", "interpretation"] ∧
      objGet (joyReport "A".toList) "strength" = some (Json.num q) ∧
      jsonDumps4 (joyReport "A".toList) =
        "\x7b\n" ++ jsonLines
          ["    \"text\": " ++ renderLeaf (Json.str (String.mk "A".toList)),
           "    \"emotion\": " ++ renderLeaf (Json.str em),
           "    \"strength\": " ++ renderJsonNum q,
           "    \"interpretation\": " ++ renderLeaf (Json.str interp)] ++ "\n\x7d" :=
  c8_report_object_shape joyClassify "t" [] "A".toList (joyReport "A".toList)
    (by rw [analyzeStep_joy "t" [] "A".toList (by decide)])

lemma insertScoreDesc_perm (x : String × ℚ) (l : List (String × ℚ)) :
    (insertScoreDesc x l).Perm (x :: l) := by
  induction l with
  | nil => exact List.Perm.refl _
  | cons y ys ih =>
    unfold insertScoreDesc
    split
    · exact List.Perm.refl _
    · exact (ih.cons y).trans (List.Perm.swap x y ys)

lemma sortScoresDesc_perm (l : List (String × ℚ)) : (sortScoresDesc l).Perm l := by
  induction l with
  | nil => exact List.Perm.refl _
  | cons x xs ih =>
    unfold sortScoresDesc
    exact (insertScoreDesc_perm x _).trans (ih.cons x)

lemma lookup_eq_of_nodup_keys :
    ∀ (l : List (String × ℚ)) (k : String) (v : ℚ),
      (l.map Prod.fst).Nodup → (k, v) ∈ l → l.lookup k = some v := by
  intro l
  induction l with
  | nil => simp
  | cons p ps ih =>
    intro k v hnd hmem
    rcases List.mem_cons.mp hmem with heq | htail
    · rw [← heq]
      simp [List.lookup]
    · rw [List.map_cons] at hnd
      obtain ⟨hhead, htl⟩ := List.nodup_cons.mp hnd
      by_cases hk : k = p.1
      · exfalso
        apply hhead
        rw [← hk]
        exact List.mem_map_of_mem Prod.fst htail
      · have hb : (k == p.1) = false := beq_eq_false_iff_ne.mpr hk
        simp only [List.lookup, hb]
        exact ih k v htl htail

lemma dictLookup_eq_of_nodup_keys (l : List (String × ℚ)) (k : String) (v : ℚ)
    (hnd : (l.map Prod.fst).Nodup) (hmem : (k, v) ∈ l) :
    dictLookup l k = some v := by
  unfold dictLookup
  apply lookup_eq_of_nodup_keys
  · rw [List.map_reverse]
    exact List.nodup_reverse.mpr hnd
  · exact List.mem_reverse.mpr hmem

/-- C9: on every successful analysis the stored score is the top-ranked
label's probability multiplied by 100 and rounded (half-to-even) to two
decimal places, and hence lies in the range [0, 100] rather than in the
classifier's native [0, 1] range. -/
theorem c9_score_is_percentage
    (classify : List Char → Except Unit (List (String × ℚ)))
    (now : String) (h : List HistEntry) (t : List Char)
    (output rest : List (String × ℚ)) (lab : String) (p : ℚ)
    (em interp : String)
    (hstrip : ¬pyStrip t = [])
    (hok : classify t = Except.ok output)
    (hsort : sortScoresDesc output = (lab, p) :: rest)
    (hnodup : (output.map Prod.fst).Nodup)
    (hprob : ∀ x ∈ output, 0 ≤ x.2 ∧ x.2 ≤ 1)
    (hem : emotionLookup lab = some (em, interp)) :
    (analyzeStep classify now h t).1 =
      h ++ [{ text := t, emotion := em, score := pythonRound2 (p * 100), time := now }] ∧
    0 ≤ pythonRound2 (p * 100) ∧ pythonRound2 (p * 100) ≤ 100 := by
  have hperm : ((lab, p) :: rest).Perm output := by
    rw [← hsort]; exact sortScoresDesc_perm output
  have hmem : (lab, p) ∈ output := hperm.mem_iff.mp (List.mem_cons_self _ _)
  have hnd2 : (((lab, p) :: rest).map Prod.fst).Nodup :=
    ((hperm.map Prod.fst).nodup_iff).mpr hnodup
  have hdl : dictLookup ((lab, p) :: rest) lab = some p :=
    dictLookup_eq_of_nodup_keys _ _ _ hnd2 (List.mem_cons_self _ _)
  have hp := hprob _ hmem
  have hb := pythonRound2_bounds (p * 100) (by nlinarith [hp.1]) (by nlinarith [hp.2])
  refine ⟨?_, hb.1, hb.2⟩
  unfold analyzeStep
  rw [if_neg hstrip]
  simp only [hok, hsort, hem, hdl]

/-- Witness for C9 at the concrete classifier output
`[("joy", 1), ("sadness", 0)]` on text "A". -/
theorem c9_score_is_percentage_witness :
    (analyzeStep joyClassify "t" [] "A".toList).1 =
      [] ++ [{ text := "A".toList, emotion := "Happiness 😊",
               score := pythonRound2 ((1 : ℚ) * 100), time := "t" }] ∧
    0 ≤ pythonRound2 ((1 : ℚ) * 100) ∧ pythonRound2 ((1 : ℚ) * 100) ≤ 100 :=
  c9_score_is_percentage joyClassify "t" [] "A".toList
    [("joy", 1), ("sadness", 0)] [("sadness", 0)] "joy" 1
    "Happiness 😊" "This text expresses joy, positivity and an uplifting tone."
    (by decide) rfl sortScoresDesc_joy (by decide)
    (by
      intro x hx
      rcases List.mem_cons.mp hx with h1 | h2
      · subst h1; norm_num
      · rcases List.mem_cons.mp h2 with h3 | h4
        · subst h3; norm_num
        · simp at h4)
    (by decide)

lemma lookup_isSome_iff_mem_keys :
    ∀ (l : List (String × String × String)) (k : String),
      (l.lookup k).isSome = true ↔ k ∈ l.map Prod.fst := by
  intro l
  induction l with
  | nil => simp
  | cons p ps ih =>
    intro k
    by_cases hk : k = p.1
    · subst hk
      simp [List.lookup]
    · have hb : (k == p.1) = false := beq_eq_false_iff_ne.mpr hk
      simp only [List.lookup, hb, List.map_cons, List.mem_cons]
      rw [ih k]
      constructor
      · exact Or.inr
      · rintro (h | h)
        · exact absurd h hk
        · exact h

/-- C10: `emotion_map` is a partial mapping — the lookup succeeds exactly
for the six labels `sadness, joy, anger, fear, surprise, neutral`, and when
the classifier's top label is any other label the analysis stops at the
`KeyError` with no record appended to the history. -/
theorem c10_emotion_map_six_labels :
    (∀ lab : String, (emotionLookup lab).isSome = true ↔ lab ∈ all_labels) ∧
    all_labels = ["sadness", "joy", "anger", "fear", "surprise", "neutral"] ∧
    (∀ (classify : List Char → Except Unit (List (String × ℚ)))
       (now : String) (h : List HistEntry) (t : List Char)
       (output rest : List (String × ℚ)) (lab : String) (s : ℚ),
      ¬pyStrip t = [] → classify t = Except.ok output →
      sortScoresDesc output = (lab, s) :: rest → emotionLookup lab = none →
      analyzeStep classify now h t = (h, Outcome.keyError lab)) := by
  refine ⟨?_, by decide, ?_⟩
  · intro lab
    exact lookup_isSome_iff_mem_keys emotion_map lab
  · intro classify now h t output rest lab s hstrip hok hsort hem
    unfold analyzeStep
    rw [if_neg hstrip]
    simp only [hok, hsort, hem]

/-- A concrete classifier returning the model label `disgust`, which the
`j-hartmann` emotion model can emit but `emotion_map` does not contain. -/
def disgustClassify : List Char → Except Unit (List (String × ℚ)) :=
  constClassify [("disgust", 1)]

/-- Witness for C10 at the unmapped label `disgust`. -/
theorem c10_emotion_map_six_labels_witness :
    (((emotionLookup "disgust").isSome = true) ↔ "disgust" ∈ all_labels) ∧
    analyzeStep disgustClassify "now" [] "A".toList = ([], Outcome.keyError "disgust") :=
  ⟨c10_emotion_map_six_labels.1 "disgust",
   c10_emotion_map_six_labels.2.2 disgustClassify "now" [] "A".toList
     [("disgust", 1)] [] "disgust" 1 (by decide) rfl rfl (by decide)⟩

/-- C6: for any ledger state satisfying the newest-first storage invariant
(timestamps strictly decreasing from head to tail), the chronological view
has exactly one pair per stored record and is strictly increasing — hence
non-decreasing — in timestamp; and the spec's `record` (head insert then
truncate) preserves the storage invariant, so the view stays monotone after
any record call.  The view is a pure projection: it is re-derived from the
stored sequence and leaves it untouched. -/
theorem c6_chronological_view_monotone (l : List ChronRecord)
    (hinv : l.Pairwise (fun a b => b.time < a.time)) :
    (chronological_view l).length = l.length ∧
    (chronological_view l).Pairwise (fun a b => a.1 < b.1) ∧
    (∀ (cap : Nat) (r : ChronRecord), (∀ x ∈ l, x.time < r.time) →
      (specRecord cap r l).Pairwise (fun a b => b.time < a.time)) := by
  refine ⟨by simp [chronological_view], ?_, ?_⟩
  · unfold chronological_view
    rw [List.pairwise_reverse, List.pairwise_map]
    exact hinv
  · intro cap r hmax
    unfold specRecord
    apply List.Pairwise.sublist (List.take_sublist cap _)
    exact List.pairwise_cons.mpr ⟨hmax, hinv⟩

/-- Witness for C6 on a concrete three-record newest-first ledger. -/
theorem c6_chronological_view_monotone_witness :
    (chronological_view [⟨3, 1⟩, ⟨2, 1⟩, ⟨1, 1⟩]).length =
      ([⟨3, 1⟩, ⟨2, 1⟩, ⟨1, 1⟩] : List ChronRecord).length ∧
    (chronological_view [⟨3, 1⟩, ⟨2, 1⟩, ⟨1, 1⟩]).Pairwise (fun a b => a.1 < b.1) ∧
    (∀ (cap : Nat) (r : ChronRecord),
      (∀ x ∈ ([⟨3, 1⟩, ⟨2, 1⟩, ⟨1, 1⟩] : List ChronRecord), x.time < r.time) →
      (specRecord cap r [⟨3, 1⟩, ⟨2, 1⟩, ⟨1, 1⟩]).Pairwise (fun a b => b.time < a.time)) :=
  c6_chronological_view_monotone [⟨3, 1⟩, ⟨2, 1⟩, ⟨1, 1⟩] (by decide)

lemma parseQuotedBody_renders (f : List Char) :
    ∀ rest : List Char, rest.head? ≠ some '"' →
      parseQuotedBody (escapeQuotes f ++ '"' :: rest) = some (f, rest) := by
  induction f with
  | nil =>
    intro rest hrest
    simp only [escapeQuotes, List.nil_append]
    cases rest with
    | nil => rfl
    | cons c2 r2 =>
      have hc2 : c2 ≠ '"' := by
        intro h
        exact hrest (by rw [h]; rfl)
      simp [parseQuotedBody, hc2]
  | cons c cs ih =>
    intro rest hrest
    by_cases hc : c = '"'
    · subst hc
      simp only [escapeQuotes, if_pos rfl, List.cons_append]
      simp [parseQuotedBody, ih rest hrest]
    · simp only [escapeQuotes, if_neg hc, List.cons_append]
      rw [parseQuotedBody.eq_def]
      simp only [if_neg hc]
      rw [ih rest hrest]
      rfl

lemma parseBareField_renders (f : List Char) :
    ∀ rest : List Char, (∀ c ∈ f, isCsvSpecial c = false) →
      (rest = [] ∨ rest.head? = some ',' ∨ rest.head? = some '\n') →
      parseBareField (f ++ rest) = (f, rest) := by
  induction f with
  | nil =>
    intro rest _ hrest
    rcases hrest with rfl | h | h
    · rfl
    · cases rest with
      | nil => simp at h
      | cons c r =>
        have hc : c = ',' := by simpa using h
        subst hc
        rfl
    · cases rest with
      | nil => simp at h
      | cons c r =>
        have hc : c = '\n' := by simpa using h
        subst hc
        rfl
  | cons c cs ih =>
    intro rest hspec hrest
    have hc := hspec c (List.mem_cons_self _ _)
    have h1 : ¬c = ',' := by
      intro h
      simp [isCsvSpecial, h] at hc
    have h2 : ¬c = '\n' := by
      intro h
      simp [isCsvSpecial, h] at hc
    have hih := ih rest (fun d hd => hspec d (List.mem_cons_of_mem _ hd)) hrest
    simp [parseBareField, h1, h2, hih]

lemma parseField_not_quote (s : List Char) (hs : s.head? ≠ some '"') :
    parseField s = some (parseBareField s) := by
  unfold parseField
  split
  · simp_all
  · rfl

lemma parseField_renders (f rest : List Char)
    (hrest : rest = [] ∨ rest.head? = some ',' ∨ rest.head? = some '\n') :
    parseField (escapeField f ++ rest) = some (f, rest) := by
  have hrq : rest.head? ≠ some '"' := by
    rcases hrest with rfl | h | h
    · simp
    · rw [h]; simp
    · rw [h]; simp
  unfold escapeField
  split
  · rw [List.cons_append, List.append_assoc]
    simp only [List.singleton_append]
    rw [show parseField ('"' :: (escapeQuotes f ++ '"' :: rest)) =
          parseQuotedBody (escapeQuotes f ++ '"' :: rest) from rfl]
    exact parseQuotedBody_renders f rest hrq
  · rename_i hany
    have hall : ∀ c ∈ f, isCsvSpecial c = false := by
      intro c hcmem
      by_contra hcc
      exact hany (List.any_eq_true.mpr ⟨c, hcmem, by simpa using hcc⟩)
    have hfq : (f ++ rest).head? ≠ some '"' := by
      cases f with
      | nil => simpa using hrq
      | cons c cs =>
        have := hall c (List.mem_cons_self _ _)
        intro hh
        simp at hh
        rw [hh] at this
        simp [isCsvSpecial] at this
    rw [parseField_not_quote _ hfq, parseBareField_renders f rest hall hrest]

lemma renderRow_length_ge (fields : List (List Char)) :
    fields.length ≤ (renderRow fields).length + 1 := by
  induction fields with
  | nil => simp [renderRow]
  | cons f fs ih =>
    cases fs with
    | nil => simp [renderRow]
    | cons g t =>
      simp only [renderRow, List.length_append, List.length_cons] at ih ⊢
      omega

lemma parseLineFuel_renders (fields : List (List Char)) :
    ∀ (fuel : Nat) (rest : List Char), fields ≠ [] → fields.length ≤ fuel →
      (rest = [] ∨ rest.head? = some '\n') →
      parseLineFuel fuel (renderRow fields ++ rest) = some (fields, rest) := by
  induction fields with
  | nil => intro _ _ hne; exact absurd rfl hne
  | cons f fs ih =>
    intro fuel rest _ hfuel hrest
    obtain ⟨fuel2, rfl⟩ : ∃ fuel2, fuel = fuel2 + 1 := by
      cases fuel with
      | zero => simp at hfuel
      | succ k => exact ⟨k, rfl⟩
    cases fs with
    | nil =>
      show parseLineFuel (fuel2 + 1) (renderRow [f] ++ rest) = some ([f], rest)
      rw [show renderRow [f] = escapeField f from rfl]
      rw [parseLineFuel]
      rw [parseField_renders f rest
        (by rcases hrest with rfl | hd
            · exact Or.inl rfl
            · exact Or.inr (Or.inr hd))]
      rcases hrest with rfl | hd
      · rfl
      · cases rest with
        | nil => rfl
        | cons c r =>
          have hc : c = '\n' := by simpa using hd
          subst hc
          rfl
    | cons g t =>
      rw [show renderRow (f :: g :: t) ++ rest =
            escapeField f ++ (',' :: (renderRow (g :: t) ++ rest)) by
          simp [renderRow]]
      rw [parseLineFuel]
      rw [parseField_renders f (',' :: (renderRow (g :: t) ++ rest)) (Or.inr (Or.inl rfl))]
      have hih := ih fuel2 rest (by simp) (by simpa using hfuel) hrest
      simp only [hih]

lemma parseLine_renders (fields : List (List Char)) (rest : List Char)
    (hne : fields ≠ []) (hrest : rest = [] ∨ rest.head? = some '\n') :
    parseLine (renderRow fields ++ rest) = some (fields, rest) := by
  unfold parseLine
  apply parseLineFuel_renders fields _ rest hne ?_ hrest
  have := renderRow_length_ge fields
  simp only [List.length_append]
  omega

lemma renderCSV_length_ge (rows : List (List (List Char))) :
    rows.length ≤ (renderCSV rows).length + 1 := by
  induction rows with
  | nil => simp [renderCSV]
  | cons r rs ih =>
    cases rs with
    | nil => simp [renderCSV]
    | cons r2 t =>
      simp only [renderCSV, List.length_append, List.length_cons] at ih ⊢
      omega

lemma parseRowsFuel_renders (rows : List (List (List Char))) :
    ∀ fuel : Nat, rows ≠ [] → (∀ r ∈ rows, r ≠ []) → rows.length ≤ fuel →
      parseRowsFuel fuel (renderCSV rows) = some rows := by
  induction rows with
  | nil => intro _ hne; exact absurd rfl hne
  | cons r rs ih =>
    intro fuel _ hall hfuel
    obtain ⟨fuel2, rfl⟩ : ∃ fuel2, fuel = fuel2 + 1 := by
      cases fuel with
      | zero => simp at hfuel
      | succ k => exact ⟨k, rfl⟩
    cases rs with
    | nil =>
      show parseRowsFuel (fuel2 + 1) (renderCSV [r]) = some [r]
      rw [show renderCSV [r] = renderRow r ++ [] by simp [renderCSV]]
      rw [parseRowsFuel]
      rw [parseLine_renders r [] (hall r (List.mem_cons_self _ _)) (Or.inl rfl)]
    | cons r2 t =>
      rw [show renderCSV (r :: r2 :: t) = renderRow r ++ ('\n' :: renderCSV (r2 :: t)) by
        simp [renderCSV]]
      rw [parseRowsFuel]
      rw [parseLine_renders r ('\n' :: renderCSV (r2 :: t))
            (hall r (List.mem_cons_self _ _)) (Or.inr rfl)]
      have hih := ih fuel2 (by simp)
        (fun x hx => hall x (List.mem_cons_of_mem _ hx)) (by simpa using hfuel)
      simp only [hih]

lemma parseCSV_renders (rows : List (List (List Char))) (hne : rows ≠ [])
    (hall : ∀ r ∈ rows, r ≠ []) :
    parseCSV (renderCSV rows) = some rows := by
  unfold parseCSV
  apply parseRowsFuel_renders rows _ hne hall
  have := renderCSV_length_ge rows
  omega

/-- C7: `export("csv")` emits the fixed header `time,text,compound,label`
followed by exactly one row per retained record in `tabular_view`
(newest-first) order, with standard CSV quoting; parsing that CSV recovers
the header and the `tabular_view` rows' field values exactly, and the export
of an empty ledger is the bare header row. -/
theorem c7_export_csv_roundtrip (l : List SpecRecord) :
    parseCSV (exportCSV l) = some (csvHeader :: (tabular_view l).map csvRowOf) ∧
    ((tabular_view l).map csvRowOf).length = l.length ∧
    exportCSV [] = "time,text,compound,label".toList := by
  refine ⟨?_, by simp [tabular_view], by decide⟩
  unfold exportCSV
  apply parseCSV_renders
  · simp
  · intro r hr
    rcases List.mem_cons.mp hr with rfl | hr2
    · simp [csvHeader]
    · obtain ⟨row, _, rfl⟩ := List.mem_map.mp hr2
      simp [csvRowOf]
